import Mathlib

/-!
Verification of the French-Dutch vocabulary quiz (files parser.py and quiz.py)
against its natural-language specification.

The Python code is shallowly embedded over `List Char`:
* `normalize_answer`, `check_answer` model the matcher in parser.py
  (lines 78-109),
* `classify_line`, `load_pairs`, `load_vocabulary` model the loader in
  parser.py (lines 18-60),
* `ask_question_step`, `sessionLoop`, `main_exit` model the quiz loop in
  quiz.py.

Modelling conventions: Python strings are `List Char`; whitespace is the
ASCII whitespace set matched by the regex class backslash-s; `str.lower`
is modelled by a finite table covering ASCII and the Latin-1 letters used
by the corpus, identity elsewhere.
-/

namespace FrenchWords

/-- Shorthand turning a string literal into the character list it denotes. -/
def strL (s : String) : List Char := s.data

/-- ASCII whitespace, as matched by the regex class backslash-s and stripped
by `str.strip` (the corpus and claims use only ASCII whitespace). -/
def isWS (c : Char) : Bool :=
  c = ' ' || c = '\t' || c = '\n' || c = '\r' || c = '\x0b' || c = '\x0c'

/-- The punctuation removed by `normalize_answer` via the regex
character class in parser.py line 87. -/
def puncts : List Char := ['.', ',', ';', ':', '!', '?', '(', ')', '"', '\'', '-']

/-- Membership test in `puncts`. -/
def isPunct (c : Char) : Bool := puncts.contains c

/-- Case-folding table for `str.lower`: ASCII letters plus the Latin-1
letters (and OE and Y-diaeresis ligatures) relevant to French and Dutch. -/
def lowerTable : List (Char × Char) :=
  [('A', 'a'), ('B', 'b'), ('C', 'c'), ('D', 'd'), ('E', 'e'), ('F', 'f'),
   ('G', 'g'), ('H', 'h'), ('I', 'i'), ('J', 'j'), ('K', 'k'), ('L', 'l'),
   ('M', 'm'), ('N', 'n'), ('O', 'o'), ('P', 'p'), ('Q', 'q'), ('R', 'r'),
   ('S', 's'), ('T', 't'), ('U', 'u'), ('V', 'v'), ('W', 'w'), ('X', 'x'),
   ('Y', 'y'), ('Z', 'z'),
   ('À', 'à'), ('Á', 'á'), ('Â', 'â'), ('Ã', 'ã'), ('Ä', 'ä'), ('Å', 'å'),
   ('Æ', 'æ'), ('Ç', 'ç'), ('È', 'è'), ('É', 'é'), ('Ê', 'ê'), ('Ë', 'ë'),
   ('Ì', 'ì'), ('Í', 'í'), ('Î', 'î'), ('Ï', 'ï'), ('Ð', 'ð'), ('Ñ', 'ñ'),
   ('Ò', 'ò'), ('Ó', 'ó'), ('Ô', 'ô'), ('Õ', 'õ'), ('Ö', 'ö'), ('Ø', 'ø'),
   ('Ù', 'ù'), ('Ú', 'ú'), ('Û', 'û'), ('Ü', 'ü'), ('Ý', 'ý'), ('Þ', 'þ'),
   ('Œ', 'œ'), ('Ÿ', 'ÿ')]

/-- Per-character case fold modelling `str.lower`. -/
def pyLower (c : Char) : Char :=
  match lowerTable.find? (fun q => q.1 == c) with
  | some q => q.2
  | none => c

/-- `str.lower` on a whole string. -/
def lowerL (l : List Char) : List Char := l.map pyLower

/-- Drop leading whitespace. -/
def ldropWS (l : List Char) : List Char := l.dropWhile isWS

/-- Drop trailing whitespace. -/
def rdropWS (l : List Char) : List Char := (l.reverse.dropWhile isWS).reverse

/-- `str.strip()`: drop leading and trailing whitespace. -/
def stripList (l : List Char) : List Char := rdropWS (ldropWS l)

/-- Remove every punctuation character, modelling the substitution of the
punctuation class by the empty string (parser.py line 87). -/
def punctF (l : List Char) : List Char := l.filter (fun c => !isPunct c)

/-- Replace every maximal run of whitespace by a single space, modelling
the substitution of one-or-more-whitespace by a single space
(parser.py line 89). -/
def collapseWS : List Char → List Char
  | [] => []
  | [c] => [if isWS c then ' ' else c]
  | c₁ :: c₂ :: rest =>
    if isWS c₁ && isWS c₂ then collapseWS (c₂ :: rest)
    else (if isWS c₁ then ' ' else c₁) :: collapseWS (c₂ :: rest)

/-- `VocabularyParser.normalize_answer` (parser.py lines 78-90):
lowercase, strip, remove punctuation, collapse whitespace, in that order. -/
def normalize_answer (l : List Char) : List Char :=
  collapseWS (punctF (stripList (lowerL l)))

/-- Helper for `splitChar`: prepend a character to the first chunk. -/
def consHead (c : Char) : List (List Char) → List (List Char)
  | [] => [[c]]
  | h :: t => (c :: h) :: t

/-- Python `str.split(sep)` for a single-character separator. -/
def splitChar (sep : Char) : List Char → List (List Char)
  | [] => [[]]
  | c :: rest =>
    if c = sep then [] :: splitChar sep rest
    else consHead c (splitChar sep rest)

/-- The candidate list built inside `VocabularyParser.check_answer`
(parser.py lines 99-107): split the canonical answer on commas,
strip and normalize each part, split each result on slashes, and
strip and normalize each piece. -/
def expand_candidates (correct : List Char) : List (List Char) :=
  ((splitChar ',' correct).map (fun ans => normalize_answer (stripList ans))).flatMap
    (fun ans => (splitChar '/' ans).map (fun a => normalize_answer (stripList a)))

/-- `VocabularyParser.check_answer` (parser.py lines 92-109): the
normalized user answer must be a member of the candidate list. -/
def check_answer (user correct : List Char) : Bool :=
  decide (normalize_answer user ∈ expand_candidates correct)

example : normalize_answer (strL "  Bonjour,  le Monde! ") = strL "bonjour le monde" := by decide
example : normalize_answer (strL "de puber (14-18 jaar)") = strL "de puber 1418 jaar" := by decide
example : check_answer (strL "de puber 14 18 jaar") (strL "de puber (14-18 jaar)") = false := by decide
example : check_answer (strL "de puber 1418 jaar") (strL "de puber (14-18 jaar)") = true := by decide
example : check_answer (strL "het hondje") (strL "de hond, het hondje") = true := by decide
example : check_answer (strL "KIJKEN") (strL "zien/kijken") = true := by decide
example : check_answer (strL "a/b") (strL "a/b") = false := by decide
example : check_answer (strL "a -") (strL "a -") = false := by decide
example : normalize_answer ['l', '\'', 'É', 'c', 'o', 'l', 'e'] = strL "lécole" := by decide
example : check_answer (strL "l ecole") ['l', '\'', 'é', 'c', 'o', 'l', 'e'] = false := by decide

/-! ## Corpus loader (parser.py lines 18-60) -/

/-- What `load_vocabulary` does with one raw line of the file. -/
inductive LineOutcome
  | skipped
  | warned
  | paired (fr du : List Char)
deriving DecidableEq

/-- First part of Python `line.split(sep, 1)` for a one-character
separator: everything before the first occurrence. -/
def beforeFirst (sep : Char) (l : List Char) : List Char :=
  l.takeWhile (fun c => !(c == sep))

/-- Second part of Python `line.split(sep, 1)`: everything after the
first occurrence, later occurrences included. -/
def afterFirst (sep : Char) (l : List Char) : List Char :=
  (l.dropWhile (fun c => !(c == sep))).tail

/-- Per-line behaviour of `VocabularyParser.load_vocabulary`
(parser.py lines 28-47): strip the line; skip it when empty or a
comment; otherwise require a pipe, split at the first pipe, strip both
sides, and keep the pair exactly when both sides are non-empty. -/
def classify_line (raw : List Char) : LineOutcome :=
  let line := stripList raw
  if line = [] then .skipped
  else if line.head? = some '#' then .skipped
  else if decide ('|' ∈ line) then
    let french := stripList (beforeFirst '|' line)
    let dutch := stripList (afterFirst '|' line)
    if french ≠ [] ∧ dutch ≠ [] then .paired french dutch else .warned
  else .warned

/-- The pair list accumulated by `load_vocabulary`, in file line order. -/
def load_pairs (lines : List (List Char)) : List (List Char × List Char) :=
  lines.filterMap (fun raw =>
    match classify_line raw with
    | .paired f d => some (f, d)
    | _ => none)

/-- Number of warnings printed by `load_vocabulary`. -/
def warnCount (lines : List (List Char)) : Nat :=
  lines.countP (fun raw => decide (classify_line raw = .warned))

/-- Outcome of opening and decoding the vocabulary file, covering the
branches of the try-except in `load_vocabulary`: the three exception
arms and the successful read of a decoded line list. -/
inductive LoadInput
  | fileNotFound
  | decodeError
  | otherError
  | content (lines : List (List Char))

/-- `VocabularyParser.load_vocabulary` (parser.py lines 18-60): returns
the success flag together with the pair list the object exposes
afterwards.  Each exception arm returns failure with the initial empty
pair list; a decoded file succeeds exactly when more than zero valid
pairs were extracted. -/
def load_vocabulary : LoadInput → Bool × List (List Char × List Char)
  | .fileNotFound => (false, [])
  | .decodeError => (false, [])
  | .otherError => (false, [])
  | .content lines =>
    let ps := load_pairs lines
    (decide (0 < ps.length), ps)

/-- The four lines of the malformed-file scenario in the spec. -/
def scenario6_lines : List (List Char) :=
  [strL "bonjour | hallo", strL "just one column", strL "# comment", strL "au revoir|tot ziens"]

example : load_pairs scenario6_lines =
    [(strL "bonjour", strL "hallo"), (strL "au revoir", strL "tot ziens")] := by decide
example : warnCount scenario6_lines = 1 := by decide

/-! ## Quiz session (quiz.py) -/

/-- Translation direction of one question. -/
inductive Direction
  | french_to_dutch
  | dutch_to_french
deriving DecidableEq

/-- Session counters of `QuizGame`: `score` and `total_questions` are
the two instance attributes, the remaining fields are the entries of
the `session_stats` dictionary (quiz.py lines 18-25). -/
structure GameState where
  score : Nat
  total_questions : Nat
  correct : Nat
  incorrect : Nat
  ftd_correct : Nat
  ftd_total : Nat
  dtf_correct : Nat
  dtf_total : Nat
deriving DecidableEq

/-- Counters right after `QuizGame.__init__`. -/
def initState : GameState :=
  { score := 0, total_questions := 0, correct := 0, incorrect := 0,
    ftd_correct := 0, ftd_total := 0, dtf_correct := 0, dtf_total := 0 }

/-- The quit commands recognized by `ask_question` (quiz.py line 91). -/
def quitCmds : List (List Char) := [strL "quit", strL "exit", strL "q"]

/-- The stats commands recognized by `ask_question` (quiz.py line 93). -/
def statsCmds : List (List Char) := [strL "stats", strL "statistics", strL "s"]

/-- Whether a stripped input is a quit command, compared lowercased. -/
def isQuitCmd (user : List Char) : Bool := decide (lowerL user ∈ quitCmds)

/-- Whether a stripped input is a stats command, compared lowercased. -/
def isStatsCmd (user : List Char) : Bool := decide (lowerL user ∈ statsCmds)

/-- Whether a stripped input leaves `ask_question` without grading:
a quit command, a stats command, or empty input. -/
def isMeta (user : List Char) : Bool :=
  isQuitCmd user || isStatsCmd user || decide (user = [])

/-- `QuizGame.ask_question` (quiz.py lines 77-119) for one generated
question: strip the typed line, handle quit, stats and empty input
without touching any counter, otherwise bump `total_questions` and the
per-direction total, grade via `check_answer`, and bump either the
correct counters or `incorrect`.  Returns the new counters and the
boolean the method returns (`false` only for quit). -/
def ask_question_step (st : GameState) (dir : Direction)
    (correct_answer raw : List Char) : GameState × Bool :=
  let user := stripList raw
  if isQuitCmd user then (st, false)
  else if isStatsCmd user then (st, true)
  else if user = [] then (st, true)
  else
    let st1 :=
      match dir with
      | .french_to_dutch =>
        { st with total_questions := st.total_questions + 1, ftd_total := st.ftd_total + 1 }
      | .dutch_to_french =>
        { st with total_questions := st.total_questions + 1, dtf_total := st.dtf_total + 1 }
    if check_answer user correct_answer then
      match dir with
      | .french_to_dutch =>
        ({ st1 with score := st1.score + 1, correct := st1.correct + 1,
                    ftd_correct := st1.ftd_correct + 1 }, true)
      | .dutch_to_french =>
        ({ st1 with score := st1.score + 1, correct := st1.correct + 1,
                    dtf_correct := st1.dtf_correct + 1 }, true)
    else
      ({ st1 with incorrect := st1.incorrect + 1 }, true)

/-- One call of `ask_question` as seen from the outside: the generated
question (direction and canonical answer) and the raw typed line. -/
structure Attempt where
  dir : Direction
  correct_answer : List Char
  raw : List Char

/-- Counters reached after a sequence of `ask_question` calls. -/
def runAttempts (st : GameState) (evs : List Attempt) : GameState :=
  evs.foldl (fun s e => (ask_question_step s e.dir e.correct_answer e.raw).1) st

/-- One event read from standard input: a typed line, or a keyboard
interrupt delivered during the blocking read. -/
inductive RawInput
  | line (s : List Char)
  | interrupt

/-- How a modelled session run ends: `normal` covers quit, interrupt
and declining to continue (the loop unwinds and the final summary
prints); `eofCrash` is an exhausted input stream, where the blocking
read raises an uncaught end-of-file error. -/
inductive EndKind
  | normal
  | eofCrash
deriving DecidableEq

/-- Replies at the continue-practicing prompt that end the session
(quiz.py line 200). -/
def continueQuits : List (List Char) :=
  [strL "n", strL "no", strL "quit", strL "exit"]

/-- The while loop of `QuizGame.run` (quiz.py lines 192-203).  The
oracle supplies the random pair and direction of the question generated
on each iteration; the input list supplies the typed lines.  After an
iteration that leaves a positive multiple of five questions, one more
line is read at the continue-practicing prompt.  A keyboard interrupt
at either read is caught by the surrounding handler and ends the run
normally. -/
def sessionLoop (oracle : Nat → Direction × List Char) :
    Nat → GameState → List RawInput → GameState × EndKind
  | _, st, [] => (st, .eofCrash)
  | _, st, .interrupt :: _ => (st, .normal)
  | k, st, .line s :: rest =>
    let q := oracle k
    let r := ask_question_step st q.1 q.2 s
    if r.2 = false then (r.1, .normal)
    else if 0 < r.1.total_questions ∧ r.1.total_questions % 5 = 0 then
      match rest with
      | [] => (r.1, .eofCrash)
      | .interrupt :: _ => (r.1, .normal)
      | .line resp :: rest2 =>
        if decide (stripList (lowerL resp) ∈ continueQuits) then (r.1, .normal)
        else sessionLoop oracle (k + 1) r.1 rest2
    else sessionLoop oracle (k + 1) r.1 rest

/-- Process exit status of `main` in quiz.py (lines 211-217): `run`
returns in every modelled branch, including failed initialization, so
the interpreter exits with status 0; the only modelled non-zero exit is
the uncaught end-of-file error, which CPython reports with status 1. -/
def main_exit (inp : LoadInput) (oracle : Nat → Direction × List Char)
    (script : List RawInput) : Nat :=
  if (load_vocabulary inp).1 then
    match (sessionLoop oracle 0 initState script).2 with
    | .normal => 0
    | .eofCrash => 1
  else 0

example : main_exit .fileNotFound (fun _ => (.french_to_dutch, [])) [] = 0 := by decide
example : main_exit (.content [strL "a|b"]) (fun _ => (.french_to_dutch, strL "b"))
    [.line (strL "b"), .interrupt] = 0 := by decide
example : main_exit (.content [strL "a|b"]) (fun _ => (.french_to_dutch, strL "b"))
    [.line (strL "b")] = 1 := by decide
example : main_exit (.content [strL "a|b"]) (fun _ => (.french_to_dutch, strL "b"))
    [.line (strL "quit")] = 0 := by decide

/-! ## Character-level lemmas about the case-folding table -/

theorem table_vals_fixed :
    ∀ p ∈ lowerTable, lowerTable.find? (fun q => q.1 == p.2) = none := by decide

theorem table_entries_plain :
    ∀ p ∈ lowerTable,
      isWS p.1 = false ∧ isWS p.2 = false ∧
      isPunct p.1 = false ∧ isPunct p.2 = false ∧
      p.1 ≠ '/' ∧ p.2 ≠ '/' := by decide

theorem pyLower_of_none {c : Char}
    (h : lowerTable.find? (fun q => q.1 == c) = none) : pyLower c = c := by
  simp [pyLower, h]

theorem pyLower_of_some {c : Char} {p : Char × Char}
    (h : lowerTable.find? (fun q => q.1 == c) = some p) : pyLower c = p.2 := by
  simp [pyLower, h]

theorem pyLower_idem (c : Char) : pyLower (pyLower c) = pyLower c := by
  cases h : lowerTable.find? (fun q => q.1 == c) with
  | none => simp only [pyLower_of_none h]
  | some p =>
    rw [pyLower_of_some h]
    exact pyLower_of_none (table_vals_fixed p (List.mem_of_find?_eq_some h))

theorem isWS_pyLower (c : Char) : isWS (pyLower c) = isWS c := by
  cases h : lowerTable.find? (fun q => q.1 == c) with
  | none => rw [pyLower_of_none h]
  | some p =>
    have hm := List.mem_of_find?_eq_some h
    have hk : p.1 = c := by
      have := List.find?_some h
      simpa using this
    rw [pyLower_of_some h, (table_entries_plain p hm).2.1, ← hk,
      (table_entries_plain p hm).1]

theorem isPunct_pyLower (c : Char) : isPunct (pyLower c) = isPunct c := by
  cases h : lowerTable.find? (fun q => q.1 == c) with
  | none => rw [pyLower_of_none h]
  | some p =>
    have hm := List.mem_of_find?_eq_some h
    have hk : p.1 = c := by
      have := List.find?_some h
      simpa using this
    rw [pyLower_of_some h, (table_entries_plain p hm).2.2.2.1, ← hk,
      (table_entries_plain p hm).2.2.1]

theorem pyLower_eq_slash {c : Char} (h : pyLower c = '/') : c = '/' := by
  cases hf : lowerTable.find? (fun q => q.1 == c) with
  | none => rw [← pyLower_of_none hf]; exact h
  | some p =>
    have hm := List.mem_of_find?_eq_some hf
    rw [pyLower_of_some hf] at h
    exact absurd h (table_entries_plain p hm).2.2.2.2.2

theorem pyLower_space : pyLower ' ' = ' ' := by decide

/-! ## Strip-layer lemmas -/

theorem dropWhile_head_false {p : α → Bool} :
    ∀ {l c t}, List.dropWhile p l = c :: t → p c = false := by
  intro l
  induction l with
  | nil => intro c t h; simp at h
  | cons a r ih =>
    intro c t h
    by_cases ha : p a
    · rw [List.dropWhile_cons_of_pos ha] at h
      exact ih h
    · rw [List.dropWhile_cons_of_neg ha] at h
      cases h
      simpa using ha

theorem dropWhile_of_head_false {p : α → Bool} {l : List α}
    (h : l = [] ∨ ∃ c t, l = c :: t ∧ p c = false) : List.dropWhile p l = l := by
  rcases h with h | ⟨c, t, rfl, hc⟩
  · simp [h]
  · exact List.dropWhile_cons_of_neg (by simp [hc])

theorem dropWhile_idem (p : α → Bool) (l : List α) :
    List.dropWhile p (List.dropWhile p l) = List.dropWhile p l := by
  apply dropWhile_of_head_false
  cases h : List.dropWhile p l with
  | nil => exact Or.inl rfl
  | cons c t => exact Or.inr ⟨c, t, rfl, dropWhile_head_false h⟩

theorem mem_of_mem_dropWhile {p : α → Bool} {l : List α} {c : α}
    (h : c ∈ List.dropWhile p l) : c ∈ l := by
  induction l with
  | nil => simp at h
  | cons a r ih =>
    by_cases ha : p a
    · rw [List.dropWhile_cons_of_pos ha] at h
      exact List.mem_cons_of_mem a (ih h)
    · rwa [List.dropWhile_cons_of_neg ha] at h

theorem mem_of_mem_ldropWS {l : List Char} {c : Char} (h : c ∈ ldropWS l) : c ∈ l :=
  mem_of_mem_dropWhile h

theorem mem_of_mem_rdropWS {l : List Char} {c : Char} (h : c ∈ rdropWS l) : c ∈ l := by
  unfold rdropWS at h
  rw [List.mem_reverse] at h
  have := mem_of_mem_dropWhile h
  rwa [List.mem_reverse] at this

theorem mem_of_mem_stripList {l : List Char} {c : Char} (h : c ∈ stripList l) : c ∈ l :=
  mem_of_mem_ldropWS (mem_of_mem_rdropWS h)

theorem ldropWS_idem (l : List Char) : ldropWS (ldropWS l) = ldropWS l :=
  dropWhile_idem isWS l

theorem rdropWS_idem (l : List Char) : rdropWS (rdropWS l) = rdropWS l := by
  unfold rdropWS
  rw [List.reverse_reverse, dropWhile_idem]

/-- `rdropWS` keeps the first character: the result is a prefix, so a
list whose leading whitespace is already gone stays that way. -/
theorem ldropWS_rdropWS_of_fixed {l : List Char} (h : ldropWS l = l) :
    ldropWS (rdropWS l) = rdropWS l := by
  apply dropWhile_of_head_false
  cases hr : rdropWS l with
  | nil => exact Or.inl rfl
  | cons c t =>
    refine Or.inr ⟨c, t, rfl, ?_⟩
    have hc : c ∈ rdropWS l := by rw [hr]; exact List.mem_cons_self c t
    -- the head of `rdropWS l` is the head of `l`
    have hpre : ∃ u, l = rdropWS l ++ u := by
      refine ⟨(l.reverse.takeWhile isWS).reverse, ?_⟩
      unfold rdropWS
      rw [← List.reverse_append, List.takeWhile_append_dropWhile, List.reverse_reverse]
    rcases hpre with ⟨u, hu⟩
    rw [hr] at hu
    -- so `l = c :: (t ++ u)`; `ldropWS l = l` forces `isWS c = false`
    by_contra hws
    have hws' : isWS c = true := by simpa using hws
    have : ldropWS l = ldropWS (t ++ u) := by
      rw [hu]; exact List.dropWhile_cons_of_pos hws'
    have hlen := congrArg List.length this
    rw [h, hu] at hlen
    have hle : (ldropWS (t ++ u)).length ≤ (t ++ u).length :=
      List.Sublist.length_le (List.dropWhile_sublist isWS)
    simp only [List.length_append, List.length_cons] at hlen hle
    omega

theorem stripList_idem (l : List Char) : stripList (stripList l) = stripList l := by
  unfold stripList
  rw [ldropWS_rdropWS_of_fixed (ldropWS_idem l), rdropWS_idem]

/-! Commutation of case folding with the strip layer. -/

theorem isWS_comp_pyLower : (isWS ∘ pyLower) = isWS := by
  funext c
  exact isWS_pyLower c

theorem ldropWS_lowerL (l : List Char) : ldropWS (lowerL l) = lowerL (ldropWS l) := by
  unfold ldropWS lowerL
  rw [List.dropWhile_map, isWS_comp_pyLower]

theorem rdropWS_lowerL (l : List Char) : rdropWS (lowerL l) = lowerL (rdropWS l) := by
  unfold rdropWS lowerL
  rw [← List.map_reverse, List.dropWhile_map, isWS_comp_pyLower, List.map_reverse]

theorem stripList_lowerL (l : List Char) : stripList (lowerL l) = lowerL (stripList l) := by
  unfold stripList
  rw [ldropWS_lowerL, rdropWS_lowerL]

/-! ## Whitespace-collapse lemmas -/

theorem collapseWS_cons_of_not_ws {c : Char} (t : List Char) (h : isWS c = false) :
    collapseWS (c :: t) = c :: collapseWS t := by
  cases t with
  | nil => simp [collapseWS, h]
  | cons b r => simp [collapseWS, h]

theorem collapseWS_cons_cons_of_ws {a b : Char} (t : List Char)
    (ha : isWS a = true) (hb : isWS b = true) :
    collapseWS (a :: b :: t) = collapseWS (b :: t) := by
  simp [collapseWS, ha, hb]

theorem collapseWS_cons_cons_of_ws_not {a b : Char} (t : List Char)
    (ha : isWS a = true) (hb : isWS b = false) :
    collapseWS (a :: b :: t) = ' ' :: collapseWS (b :: t) := by
  simp [collapseWS, ha, hb]

theorem isWS_space : isWS ' ' = true := by decide

theorem collapseWS_nil : collapseWS [] = [] := rfl

theorem collapseWS_singleton (c : Char) :
    collapseWS [c] = [if isWS c then ' ' else c] := rfl

theorem ldropWS_collapseWS (l : List Char) :
    ldropWS (collapseWS l) = collapseWS (ldropWS l) := by
  induction l with
  | nil => rfl
  | cons c t ih =>
    cases t with
    | nil =>
      by_cases h : isWS c = true
      · rw [collapseWS_singleton, if_pos h]
        unfold ldropWS
        rw [List.dropWhile_cons_of_pos isWS_space, List.dropWhile_cons_of_pos h]
        rfl
      · rw [collapseWS_singleton, if_neg h]
        unfold ldropWS
        rw [List.dropWhile_cons_of_neg h]
        rw [collapseWS_singleton, if_neg h]
    | cons b r =>
      by_cases hc : isWS c = true
      · by_cases hb : isWS b = true
        · rw [collapseWS_cons_cons_of_ws r hc hb, ih]
          unfold ldropWS
          rw [List.dropWhile_cons_of_pos hc]
        · have hb' : isWS b = false := by simp at hb; exact hb
          rw [collapseWS_cons_cons_of_ws_not r hc hb']
          unfold ldropWS
          rw [List.dropWhile_cons_of_pos isWS_space, List.dropWhile_cons_of_pos hc]
          have h1 : List.dropWhile isWS (b :: r) = b :: r :=
            List.dropWhile_cons_of_neg hb
          rw [h1]
          have h2 := ih
          unfold ldropWS at h2
          rw [h1] at h2
          exact h2
      · rw [collapseWS_cons_of_not_ws (b :: r) (by simp at hc; exact hc)]
        unfold ldropWS
        rw [List.dropWhile_cons_of_neg hc, List.dropWhile_cons_of_neg hc,
          collapseWS_cons_of_not_ws (b :: r) (by simp at hc; exact hc)]

/-- Whether a list ends in whitespace; drives the collapse of an
appended character. -/
def endsWS (l : List Char) : Bool :=
  match l.getLast? with
  | some c => isWS c
  | none => false

theorem endsWS_cons_cons (a b : Char) (t : List Char) :
    endsWS (a :: b :: t) = endsWS (b :: t) := by
  unfold endsWS
  rw [List.getLast?_cons_cons]

theorem collapseWS_append_single (l : List Char) (c : Char) :
    collapseWS (l ++ [c]) =
      if endsWS l && isWS c then collapseWS l
      else collapseWS l ++ [if isWS c then ' ' else c] := by
  induction l with
  | nil =>
    by_cases h : isWS c = true <;>
      simp [collapseWS_nil, collapseWS_singleton, endsWS, h]
  | cons a t ih =>
    cases t with
    | nil =>
      by_cases ha : isWS a = true <;> by_cases hc : isWS c = true <;>
        simp [collapseWS, endsWS, ha, hc]
    | cons b r =>
      simp only [List.cons_append] at ih ⊢
      by_cases ha : isWS a = true
      · by_cases hb : isWS b = true
        · rw [collapseWS_cons_cons_of_ws (r ++ [c]) ha hb,
            collapseWS_cons_cons_of_ws r ha hb, endsWS_cons_cons]
          exact ih
        · have hb' : isWS b = false := by simp at hb; exact hb
          rw [collapseWS_cons_cons_of_ws_not (r ++ [c]) ha hb',
            collapseWS_cons_cons_of_ws_not r ha hb', endsWS_cons_cons, ih]
          by_cases he : (endsWS (b :: r) && isWS c) = true <;> simp [he]
      · have ha' : isWS a = false := by simp at ha; exact ha
        rw [collapseWS_cons_of_not_ws (b :: (r ++ [c])) ha',
          collapseWS_cons_of_not_ws (b :: r) ha', endsWS_cons_cons, ih]
        by_cases he : (endsWS (b :: r) && isWS c) = true <;> simp [he]

theorem collapseWS_reverse (l : List Char) :
    collapseWS l.reverse = (collapseWS l).reverse := by
  induction l with
  | nil => rfl
  | cons c t ih =>
    rw [List.reverse_cons, collapseWS_append_single]
    cases t with
    | nil =>
      by_cases hc : isWS c = true <;>
        simp [collapseWS_nil, collapseWS_singleton, endsWS, hc]
    | cons b r =>
      have hend : endsWS ((b :: r).reverse) = isWS b := by
        unfold endsWS
        rw [List.getLast?_reverse]
        rfl
      rw [hend]
      by_cases hb : isWS b = true
      · by_cases hc : isWS c = true
        · rw [if_pos (by simp [hb, hc]), collapseWS_cons_cons_of_ws r hc hb]
          exact ih
        · have hc' : isWS c = false := by simp at hc; exact hc
          rw [if_neg (by simp [hc']), if_neg hc,
            collapseWS_cons_of_not_ws (b :: r) hc', ih, List.reverse_cons]
      · have hb' : isWS b = false := by simp at hb; exact hb
        by_cases hc : isWS c = true
        · rw [if_neg (by simp [hb']), if_pos hc,
            collapseWS_cons_cons_of_ws_not r hc hb', ih, List.reverse_cons]
        · have hc' : isWS c = false := by simp at hc; exact hc
          rw [if_neg (by simp [hc']), if_neg hc,
            collapseWS_cons_of_not_ws (b :: r) hc', ih, List.reverse_cons]

theorem rdropWS_collapseWS (l : List Char) :
    rdropWS (collapseWS l) = collapseWS (rdropWS l) := by
  unfold rdropWS
  rw [← collapseWS_reverse]
  show (ldropWS (collapseWS l.reverse)).reverse =
    collapseWS (List.dropWhile isWS l.reverse).reverse
  rw [ldropWS_collapseWS]
  show (collapseWS (ldropWS l.reverse)).reverse =
    collapseWS ((ldropWS l.reverse).reverse)
  rw [collapseWS_reverse]

theorem stripList_collapseWS (l : List Char) :
    stripList (collapseWS l) = collapseWS (stripList l) := by
  unfold stripList
  rw [ldropWS_collapseWS, rdropWS_collapseWS]

theorem collapseWS_idem (l : List Char) : collapseWS (collapseWS l) = collapseWS l := by
  induction l with
  | nil => rfl
  | cons c t ih =>
    cases t with
    | nil =>
      by_cases h : isWS c = true
      · rw [collapseWS_singleton, if_pos h, collapseWS_singleton, if_pos isWS_space]
      · rw [collapseWS_singleton, if_neg h, collapseWS_singleton, if_neg h]
    | cons b r =>
      by_cases hc : isWS c = true
      · by_cases hb : isWS b = true
        · rw [collapseWS_cons_cons_of_ws r hc hb]
          exact ih
        · have hb' : isWS b = false := by simp at hb; exact hb
          rw [collapseWS_cons_cons_of_ws_not r hc hb']
          rw [collapseWS_cons_of_not_ws r hb']
          rw [collapseWS_cons_cons_of_ws_not (collapseWS r) isWS_space hb']
          rw [collapseWS_cons_of_not_ws r hb'] at ih
          rw [ih]
      · have hc' : isWS c = false := by simp at hc; exact hc
        rw [collapseWS_cons_of_not_ws (b :: r) hc',
          collapseWS_cons_of_not_ws (collapseWS (b :: r)) hc', ih]

theorem mem_collapseWS {l : List Char} {c : Char} (h : c ∈ collapseWS l) :
    c = ' ' ∨ c ∈ l := by
  induction l with
  | nil => simp [collapseWS] at h
  | cons a t ih =>
    cases t with
    | nil =>
      rw [collapseWS_singleton] at h
      have h' : c = if isWS a then ' ' else a := by
        rcases List.mem_cons.mp h with h' | h'
        · exact h'
        · simp at h'
      by_cases ha : isWS a = true
      · rw [if_pos ha] at h'
        exact Or.inl h'
      · rw [if_neg ha] at h'
        exact Or.inr (by rw [h']; exact List.mem_cons_self a [])
    | cons b r =>
      by_cases ha : isWS a = true
      · by_cases hb : isWS b = true
        · rw [collapseWS_cons_cons_of_ws r ha hb] at h
          rcases ih h with h' | h'
          · exact Or.inl h'
          · exact Or.inr (List.mem_cons_of_mem a h')
        · have hb' : isWS b = false := by simp at hb; exact hb
          rw [collapseWS_cons_cons_of_ws_not r ha hb'] at h
          rcases List.mem_cons.mp h with h' | h'
          · exact Or.inl h'
          · rcases ih h' with h'' | h''
            · exact Or.inl h''
            · exact Or.inr (List.mem_cons_of_mem a h'')
      · have ha' : isWS a = false := by simp at ha; exact ha
        rw [collapseWS_cons_of_not_ws (b :: r) ha'] at h
        rcases List.mem_cons.mp h with h' | h'
        · exact Or.inr (by rw [h']; exact List.mem_cons_self a (b :: r))
        · rcases ih h' with h'' | h''
          · exact Or.inl h''
          · exact Or.inr (List.mem_cons_of_mem a h'')

/-! ## Structure of normalized strings -/

theorem map_id_of_fixed {f : α → α} :
    ∀ {l : List α}, (∀ c ∈ l, f c = c) → l.map f = l
  | [], _ => rfl
  | c :: t, h => by
    rw [List.map_cons, h c (List.mem_cons_self c t),
      map_id_of_fixed (fun d hd => h d (List.mem_cons_of_mem c hd))]

theorem isPunct_space : isPunct ' ' = false := by decide

/-- Every character of a normalized string is punctuation-free. -/
theorem normalize_no_punct {l : List Char} {c : Char}
    (h : c ∈ normalize_answer l) : isPunct c = false := by
  unfold normalize_answer at h
  rcases mem_collapseWS h with h' | h'
  · rw [h']; exact isPunct_space
  · have h2 := (List.mem_filter.mp h').2
    simpa using h2

/-- Every character of a normalized string is fixed by case folding. -/
theorem normalize_lower_fixed {l : List Char} {c : Char}
    (h : c ∈ normalize_answer l) : pyLower c = c := by
  unfold normalize_answer at h
  rcases mem_collapseWS h with h' | h'
  · rw [h']; exact pyLower_space
  · have h2 : c ∈ stripList (lowerL l) := (List.mem_filter.mp h').1
    have h3 : c ∈ lowerL l := mem_of_mem_stripList h2
    rcases List.mem_map.mp h3 with ⟨d, _, hd⟩
    rw [← hd]
    exact pyLower_idem d

/-- Normalization never introduces a slash. -/
theorem normalize_no_slash {l : List Char} (hl : '/' ∉ l) :
    '/' ∉ normalize_answer l := by
  intro h
  unfold normalize_answer at h
  rcases mem_collapseWS h with h' | h'
  · exact absurd h' (by decide)
  · have h2 : '/' ∈ stripList (lowerL l) := (List.mem_filter.mp h').1
    have h3 : '/' ∈ lowerL l := mem_of_mem_stripList h2
    rcases List.mem_map.mp h3 with ⟨d, hdl, hd⟩
    rw [pyLower_eq_slash hd] at hdl
    exact hl hdl

/-- Stripping before normalizing changes nothing: `normalize_answer`
strips on its own right after case folding. -/
theorem normalize_stripList (l : List Char) :
    normalize_answer (stripList l) = normalize_answer l := by
  unfold normalize_answer
  rw [← stripList_lowerL, stripList_idem]

/-- A punctuation-free list is untouched by the punctuation filter. -/
theorem punctF_of_no_punct {l : List Char} (h : ∀ c ∈ l, isPunct c = false) :
    punctF l = l :=
  List.filter_eq_self.mpr (fun c hc => by simp [h c hc])

/-- A pointwise case-folded list is untouched by case folding. -/
theorem lowerL_of_fixed {l : List Char} (h : ∀ c ∈ l, pyLower c = c) :
    lowerL l = l :=
  map_id_of_fixed h

/-- Normalizing twice is the same as normalizing and stripping: the
second pass only removes the boundary whitespace that punctuation
removal may have exposed. -/
theorem normalize_normalize (l : List Char) :
    normalize_answer (normalize_answer l) = stripList (normalize_answer l) := by
  have key : normalize_answer (normalize_answer l) =
      collapseWS (stripList (normalize_answer l)) := by
    conv_lhs => rw [normalize_answer]
    rw [lowerL_of_fixed (fun c hc => normalize_lower_fixed hc),
      punctF_of_no_punct (fun c hc => normalize_no_punct (mem_of_mem_stripList hc))]
  rw [key, show normalize_answer l = collapseWS (punctF (stripList (lowerL l))) from rfl,
    stripList_collapseWS, collapseWS_idem]

/-- On punctuation-free, case-fixed input, normalization is collapse
after strip, and its output is already stripped. -/
theorem stripList_normalize_of_plain {l : List Char}
    (hp : ∀ c ∈ l, isPunct c = false) (hf : ∀ c ∈ l, pyLower c = c) :
    stripList (normalize_answer l) = normalize_answer l := by
  unfold normalize_answer
  rw [lowerL_of_fixed hf,
    punctF_of_no_punct (fun c hc => hp c (mem_of_mem_stripList hc)),
    stripList_collapseWS, stripList_idem]

/-! ## Splitting lemmas -/

theorem splitChar_ne_nil (sep : Char) (l : List Char) : splitChar sep l ≠ [] := by
  cases l with
  | nil => simp [splitChar]
  | cons c t =>
    unfold splitChar
    by_cases h : c = sep
    · simp [h]
    · rw [if_neg h]
      cases hs : splitChar sep t with
      | nil => simp [consHead]
      | cons x y => simp [consHead]

/-- Splitting a separator-free list returns the list itself. -/
theorem splitChar_of_not_mem {sep : Char} :
    ∀ {l : List Char}, sep ∉ l → splitChar sep l = [l] := by
  intro l
  induction l with
  | nil => intro _; rfl
  | cons c t ih =>
    intro h
    unfold splitChar
    rw [if_neg (fun hc => h (List.mem_cons.mpr (Or.inl hc.symm))),
      ih (fun ht => h (List.mem_cons_of_mem c ht))]
    rfl

/-- Every character of every chunk of a split comes from the original
list. -/
theorem mem_of_mem_splitChar {sep : Char} :
    ∀ {l : List Char} {piece : List Char} {c : Char},
      piece ∈ splitChar sep l → c ∈ piece → c ∈ l := by
  intro l
  induction l with
  | nil =>
    intro piece c hp hc
    unfold splitChar at hp
    rcases List.mem_cons.mp hp with h | h
    · rw [h] at hc; simp at hc
    · simp at h
  | cons a t ih =>
    intro piece c hp hc
    unfold splitChar at hp
    by_cases ha : a = sep
    · rw [if_pos ha] at hp
      rcases List.mem_cons.mp hp with h | h
      · rw [h] at hc; simp at hc
      · exact List.mem_cons_of_mem a (ih h hc)
    · rw [if_neg ha] at hp
      cases hs : splitChar sep t with
      | nil => exact absurd hs (splitChar_ne_nil sep t)
      | cons x y =>
        rw [hs] at hp
        unfold consHead at hp
        rcases List.mem_cons.mp hp with h | h
        · rw [h] at hc
          rcases List.mem_cons.mp hc with h' | h'
          · rw [h']; exact List.mem_cons_self a t
          · refine List.mem_cons_of_mem a (ih ?_ h')
            rw [hs]; exact List.mem_cons_self x y
        · refine List.mem_cons_of_mem a (ih ?_ hc)
          rw [hs]; exact List.mem_cons_of_mem x h

/-! ## Claims about the matcher -/

/-- Claim C5: every candidate in the expansion of a canonical answer is
accepted by `check_answer` against that canonical answer. -/
theorem claim5_candidates_accepted (a c : List Char)
    (hc : c ∈ expand_candidates a) : check_answer c a = true := by
  have hmem := hc
  unfold expand_candidates at hc
  rcases List.mem_flatMap.mp hc with ⟨q, hq, hcq⟩
  rcases List.mem_map.mp hq with ⟨p, _, hpq⟩
  rcases List.mem_map.mp hcq with ⟨a2, ha2, hca⟩
  have hplain : ∀ x ∈ a2, isPunct x = false ∧ pyLower x = x := by
    intro x hx
    have hxq : x ∈ q := mem_of_mem_splitChar ha2 hx
    rw [← hpq] at hxq
    exact ⟨normalize_no_punct hxq, normalize_lower_fixed hxq⟩
  have hc2 : c = normalize_answer a2 := by rw [← hca, normalize_stripList]
  have hfix : normalize_answer c = c := by
    rw [hc2, normalize_normalize,
      stripList_normalize_of_plain (fun x hx => (hplain x hx).1)
        (fun x hx => (hplain x hx).2)]
  unfold check_answer
  rw [hfix]
  exact decide_eq_true hmem

/-- Witness for Claim C5: the first comma alternative of a two-variant
canonical answer is accepted. -/
theorem claim5_witness :
    check_answer (strL "de hond") (strL "de hond, het hondje") = true :=
  claim5_candidates_accepted (strL "de hond, het hondje") (strL "de hond") (by decide)

/-- Claim C1 counterexample: matching a string against itself fails on a
string containing a slash, and also on a slash-free and comma-free
string where punctuation removal exposes trailing whitespace. -/
theorem claim1_counterexample :
    check_answer (strL "a/b") (strL "a/b") = false ∧
    check_answer (strL "a -") (strL "a -") = false := by decide

/-- Claim C1 (amended): for a string containing neither comma nor slash,
the normalized form matched against the original is always accepted, and
the original matched against itself is accepted whenever its normalized
form carries no leading or trailing whitespace. -/
theorem claim1_self_match (s : List Char) (hcomma : ',' ∉ s) (hslash : '/' ∉ s) :
    check_answer (normalize_answer s) s = true ∧
    (stripList (normalize_answer s) = normalize_answer s →
      check_answer s s = true) := by
  have hq : '/' ∉ normalize_answer s := normalize_no_slash hslash
  have hexp : expand_candidates s = [stripList (normalize_answer s)] := by
    unfold expand_candidates
    rw [splitChar_of_not_mem hcomma, List.map_cons, List.map_nil, normalize_stripList,
      List.flatMap_cons, List.flatMap_nil, List.append_nil,
      splitChar_of_not_mem hq, List.map_cons, List.map_nil,
      normalize_stripList, normalize_normalize]
  constructor
  · unfold check_answer
    rw [hexp, normalize_normalize]
    simp
  · intro hstrip
    unfold check_answer
    rw [hexp, hstrip]
    simp

/-- Witness for the amended Claim C1 at a concrete input satisfying
both hypotheses. -/
theorem claim1_witness :
    check_answer (normalize_answer (strL "Bonjour tout le monde!")) (strL "Bonjour tout le monde!") = true ∧
    check_answer (strL "Bonjour tout le monde!") (strL "Bonjour tout le monde!") = true :=
  ⟨(claim1_self_match (strL "Bonjour tout le monde!") (by decide) (by decide)).1,
   (claim1_self_match (strL "Bonjour tout le monde!") (by decide) (by decide)).2 (by decide)⟩

/-- Claim C2 counterexample: the user answer the spec says is accepted
is in fact rejected, because removing the hyphen from the canonical
answer leaves the digits glued together while the typed digits remain
separated by a space. -/
theorem claim2_counterexample :
    check_answer (strL "de puber 14 18 jaar") (strL "de puber (14-18 jaar)") = false := by decide

/-- Claim C2 (amended): normalization of the canonical answer yields the
single candidate with glued digits, which is the only accepted form; the
spaced form, the hint-free form and the bare noun are all rejected. -/
theorem claim2_parenthetical :
    expand_candidates (strL "de puber (14-18 jaar)") = [strL "de puber 1418 jaar"] ∧
    check_answer (strL "de puber 1418 jaar") (strL "de puber (14-18 jaar)") = true ∧
    check_answer (strL "de puber 14 18 jaar") (strL "de puber (14-18 jaar)") = false ∧
    check_answer (strL "de puber") (strL "de puber (14-18 jaar)") = false ∧
    check_answer (strL "puber") (strL "de puber (14-18 jaar)") = false := by decide

/-- The canonical answer of the apostrophe scenario, with lowercase
accented e. -/
def lEcole : List Char := ['l', '\'', 'é', 'c', 'o', 'l', 'e']

/-- The same canonical answer typed with an uppercase accented E. -/
def lEcoleUpper : List Char := ['l', '\'', 'É', 'c', 'o', 'l', 'e']

/-- Claim C3 counterexample: the two accent-free user answers the spec
says are accepted are in fact rejected, because apostrophe removal glues
the letters of the canonical answer while the accent is preserved. -/
theorem claim3_counterexample :
    check_answer (strL "l ecole") lEcole = false ∧
    check_answer (strL "lecole") lEcole = false := by decide

/-- Claim C3 (amended): the canonical answer normalizes to the glued
accented form, so the uppercase accented spelling and the glued accented
spelling are accepted while the accent-free spellings (with or without
the space) are rejected; case is folded on accented letters and
diacritics are never stripped. -/
theorem claim3_apostrophe_case :
    normalize_answer lEcole = strL "lécole" ∧
    check_answer lEcoleUpper lEcole = true ∧
    check_answer (strL "lécole") lEcole = true ∧
    check_answer (strL "l ecole") lEcole = false ∧
    check_answer (strL "lecole") lEcole = false ∧
    check_answer (strL "École") (strL "école") = true ∧
    check_answer (strL "ecole") (strL "école") = false ∧
    check_answer (strL "ecole") (strL "École") = false := by decide

/-! ## Claims about the session counters -/

/-- Counter conservation invariants of the data model. -/
def countersInv (st : GameState) : Prop :=
  st.correct + st.incorrect = st.total_questions ∧
  st.ftd_total + st.dtf_total = st.total_questions ∧
  st.ftd_correct ≤ st.ftd_total ∧
  st.dtf_correct ≤ st.dtf_total

/-- Componentwise order on counters: nothing ever decreases. -/
def componentsLE (st st' : GameState) : Prop :=
  st.score ≤ st'.score ∧ st.total_questions ≤ st'.total_questions ∧
  st.correct ≤ st'.correct ∧ st.incorrect ≤ st'.incorrect ∧
  st.ftd_correct ≤ st'.ftd_correct ∧ st.ftd_total ≤ st'.ftd_total ∧
  st.dtf_correct ≤ st'.dtf_correct ∧ st.dtf_total ≤ st'.dtf_total

theorem isQuitCmd_nil : isQuitCmd ([] : List Char) = false := by decide

theorem isStatsCmd_nil : isStatsCmd ([] : List Char) = false := by decide

theorem countersInv_step (st : GameState) (dir : Direction) (ca raw : List Char)
    (h : countersInv st) : countersInv (ask_question_step st dir ca raw).1 := by
  unfold ask_question_step
  by_cases he : stripList raw = []
  · simpa [he, isQuitCmd_nil, isStatsCmd_nil] using h
  · by_cases hq : isQuitCmd (stripList raw) = true
    · simpa [hq] using h
    · by_cases hs : isStatsCmd (stripList raw) = true
      · simpa [hq, hs] using h
      · obtain ⟨h1, h2, h3, h4⟩ := h
        cases dir <;> by_cases hchk : check_answer (stripList raw) ca = true <;>
          simp [hq, hs, he, hchk, countersInv] <;> omega

theorem componentsLE_step (st : GameState) (dir : Direction) (ca raw : List Char) :
    componentsLE st (ask_question_step st dir ca raw).1 := by
  unfold ask_question_step
  by_cases he : stripList raw = []
  · simp [he, isQuitCmd_nil, isStatsCmd_nil, componentsLE]
  · by_cases hq : isQuitCmd (stripList raw) = true
    · simp [hq, componentsLE]
    · by_cases hs : isStatsCmd (stripList raw) = true
      · simp [hq, hs, componentsLE]
      · cases dir <;> by_cases hchk : check_answer (stripList raw) ca = true <;>
          simp [hq, hs, he, hchk, componentsLE]

theorem runAttempts_cons (st : GameState) (e : Attempt) (evs : List Attempt) :
    runAttempts st (e :: evs) =
      runAttempts (ask_question_step st e.dir e.correct_answer e.raw).1 evs := rfl

theorem countersInv_runAttempts (evs : List Attempt) :
    ∀ st : GameState, countersInv st → countersInv (runAttempts st evs) := by
  induction evs with
  | nil => intro st h; exact h
  | cons e t ih =>
    intro st h
    rw [runAttempts_cons]
    exact ih _ (countersInv_step st e.dir e.correct_answer e.raw h)

/-- Claim C6: all counters start at zero, the conservation invariants
hold in every state reachable by a sequence of question-handling steps,
and no counter ever decreases under a step (graded attempt,
meta-command or empty input alike). -/
theorem claim6_counter_invariants :
    (initState.score = 0 ∧ initState.total_questions = 0 ∧ initState.correct = 0 ∧
     initState.incorrect = 0 ∧ initState.ftd_correct = 0 ∧ initState.ftd_total = 0 ∧
     initState.dtf_correct = 0 ∧ initState.dtf_total = 0) ∧
    (∀ evs : List Attempt, countersInv (runAttempts initState evs)) ∧
    (∀ (st : GameState) (dir : Direction) (ca raw : List Char),
      componentsLE st (ask_question_step st dir ca raw).1) := by
  refine ⟨⟨rfl, rfl, rfl, rfl, rfl, rfl, rfl, rfl⟩, ?_, componentsLE_step⟩
  intro evs
  exact countersInv_runAttempts evs initState ⟨rfl, rfl, Nat.le_refl 0, Nat.le_refl 0⟩

/-- Witness for Claim C6: the invariant after a concrete two-step
session and monotonicity across a concrete graded step. -/
theorem claim6_witness :
    countersInv (runAttempts initState
      [⟨.french_to_dutch, strL "hallo", strL "hallo"⟩,
       ⟨.dutch_to_french, strL "bonjour", strL "wrong"⟩]) ∧
    componentsLE initState
      (ask_question_step initState .french_to_dutch (strL "hallo") (strL "hallo")).1 :=
  ⟨claim6_counter_invariants.2.1
      [⟨.french_to_dutch, strL "hallo", strL "hallo"⟩,
       ⟨.dutch_to_french, strL "bonjour", strL "wrong"⟩],
   claim6_counter_invariants.2.2 initState .french_to_dutch (strL "hallo") (strL "hallo")⟩

/-- Per-direction question total. -/
def dirTotal : Direction → GameState → Nat
  | .french_to_dutch, st => st.ftd_total
  | .dutch_to_french, st => st.dtf_total

/-- The opposite direction. -/
def otherDir : Direction → Direction
  | .french_to_dutch => .dutch_to_french
  | .dutch_to_french => .french_to_dutch

/-- Claim C9: a quit command, a stats command (both matched
case-insensitively on the trimmed input) or an empty input leaves every
counter unchanged; on a graded attempt the total, the chosen direction
total and exactly one of correct or incorrect each grow by one, with the
other direction untouched and no partial update. -/
theorem claim9_frame (st : GameState) (dir : Direction) (ca raw : List Char) :
    (isMeta (stripList raw) = true → (ask_question_step st dir ca raw).1 = st) ∧
    (isMeta (stripList raw) = false →
      (ask_question_step st dir ca raw).1.total_questions = st.total_questions + 1 ∧
      dirTotal dir (ask_question_step st dir ca raw).1 = dirTotal dir st + 1 ∧
      dirTotal (otherDir dir) (ask_question_step st dir ca raw).1 =
        dirTotal (otherDir dir) st ∧
      ((ask_question_step st dir ca raw).1.correct = st.correct + 1 ∧
         (ask_question_step st dir ca raw).1.incorrect = st.incorrect ∨
       (ask_question_step st dir ca raw).1.incorrect = st.incorrect + 1 ∧
         (ask_question_step st dir ca raw).1.correct = st.correct)) := by
  constructor
  · intro hm
    simp only [isMeta, Bool.or_eq_true, decide_eq_true_eq] at hm
    unfold ask_question_step
    rcases hm with (hq | hs) | he
    · simp [hq]
    · by_cases hq : isQuitCmd (stripList raw) = true
      · simp [hq]
      · simp [hq, hs]
    · simp [he, isQuitCmd_nil, isStatsCmd_nil]
  · intro hm
    simp only [isMeta, Bool.or_eq_false_iff, decide_eq_false_iff_not] at hm
    obtain ⟨⟨hq, hs⟩, he⟩ := hm
    unfold ask_question_step
    cases dir <;> by_cases hchk : check_answer (stripList raw) ca = true <;>
      simp [hq, hs, he, hchk, dirTotal, otherDir]

/-- Witness for Claim C9: a stats command leaves the initial state
unchanged and a concrete graded attempt bumps the total. -/
theorem claim9_witness :
    (ask_question_step initState .french_to_dutch (strL "hallo") (strL "  STATS ")).1 =
      initState ∧
    (ask_question_step initState .french_to_dutch (strL "hallo") (strL "hallo")).1.total_questions =
      initState.total_questions + 1 :=
  ⟨(claim9_frame initState .french_to_dutch (strL "hallo") (strL "  STATS ")).1 (by decide),
   ((claim9_frame initState .french_to_dutch (strL "hallo") (strL "hallo")).2 (by decide)).1⟩

theorem score_eq_correct_step (st : GameState) (dir : Direction) (ca raw : List Char)
    (h : st.score = st.correct) :
    (ask_question_step st dir ca raw).1.score = (ask_question_step st dir ca raw).1.correct := by
  unfold ask_question_step
  by_cases he : stripList raw = []
  · simpa [he, isQuitCmd_nil, isStatsCmd_nil] using h
  · by_cases hq : isQuitCmd (stripList raw) = true
    · simpa [hq] using h
    · by_cases hs : isStatsCmd (stripList raw) = true
      · simpa [hq, hs] using h
      · cases dir <;> by_cases hchk : check_answer (stripList raw) ca = true <;>
          simp [hq, hs, he, hchk] <;> omega

/-- Claim C10: after initialization and after every sequence of
question-handling steps, the score attribute equals the correct entry
of the session statistics, so the running score line and the statistics
display report the same number. -/
theorem claim10_score_eq_correct (evs : List Attempt) :
    (runAttempts initState evs).score = (runAttempts initState evs).correct := by
  have key : ∀ (evs : List Attempt) (st : GameState), st.score = st.correct →
      (runAttempts st evs).score = (runAttempts st evs).correct := by
    intro evs
    induction evs with
    | nil => intro st h; exact h
    | cons e t ih =>
      intro st h
      rw [runAttempts_cons]
      exact ih _ (score_eq_correct_step st e.dir e.correct_answer e.raw h)
  exact key evs initState rfl

/-- Witness for Claim C10 on a concrete one-question session. -/
theorem claim10_witness :
    (runAttempts initState [⟨.dutch_to_french, strL "bonjour", strL "Bonjour"⟩]).score =
    (runAttempts initState [⟨.dutch_to_french, strL "bonjour", strL "Bonjour"⟩]).correct :=
  claim10_score_eq_correct [⟨.dutch_to_french, strL "bonjour", strL "Bonjour"⟩]

/-! ## Claims about the loader -/

theorem beforeFirst_append {a b : List Char} (h : '|' ∉ a) :
    beforeFirst '|' (a ++ '|' :: b) = a := by
  induction a with
  | nil =>
    unfold beforeFirst
    simp
  | cons x xs ih =>
    unfold beforeFirst at ih ⊢
    have hx : ¬ x = '|' := fun hx => h (List.mem_cons.mpr (Or.inl hx.symm))
    rw [List.cons_append, List.takeWhile_cons_of_pos (by simp [hx]),
      ih (fun hm => h (List.mem_cons_of_mem x hm))]

theorem afterFirst_append {a b : List Char} (h : '|' ∉ a) :
    afterFirst '|' (a ++ '|' :: b) = b := by
  induction a with
  | nil =>
    unfold afterFirst
    simp
  | cons x xs ih =>
    unfold afterFirst at ih ⊢
    have hx : ¬ x = '|' := fun hx => h (List.mem_cons.mpr (Or.inl hx.symm))
    rw [List.cons_append, List.dropWhile_cons_of_pos (by simp [hx])]
    exact ih (fun hm => h (List.mem_cons_of_mem x hm))

/-- Claim C7: on the malformed-file scenario the loader returns exactly
the two expected pairs in order with one warning; in general it
processes lines independently in file order, skips trimmed-empty and
comment lines, splits every other line at the first pipe only (later
pipes stay in the Dutch side), trims both sides, pairs exactly when
both sides are non-empty, and warns on pipe-less lines. -/
theorem claim7_loader :
    load_pairs scenario6_lines =
      [(strL "bonjour", strL "hallo"), (strL "au revoir", strL "tot ziens")] ∧
    warnCount scenario6_lines = 1 ∧
    (∀ l1 l2 : List (List Char),
      load_pairs (l1 ++ l2) = load_pairs l1 ++ load_pairs l2) ∧
    (∀ raw : List Char, stripList raw = [] → classify_line raw = .skipped) ∧
    (∀ raw : List Char, (stripList raw).head? = some '#' →
      classify_line raw = .skipped) ∧
    (∀ (raw a b : List Char), stripList raw = a ++ '|' :: b → '|' ∉ a →
      (stripList raw).head? ≠ some '#' →
      classify_line raw =
        if stripList a ≠ [] ∧ stripList b ≠ [] then
          .paired (stripList a) (stripList b)
        else .warned) ∧
    (∀ raw : List Char, stripList raw ≠ [] → (stripList raw).head? ≠ some '#' →
      '|' ∉ stripList raw → classify_line raw = .warned) := by
  refine ⟨by decide, by decide, ?_, ?_, ?_, ?_, ?_⟩
  · intro l1 l2
    unfold load_pairs
    exact List.filterMap_append l1 l2 _
  · intro raw h
    simp [classify_line, h]
  · intro raw h
    by_cases hnil : stripList raw = []
    · simp [classify_line, hnil]
    · simp [classify_line, hnil, h]
  · intro raw a b hsplit hnp hhash
    have hnil : stripList raw ≠ [] := by
      rw [hsplit]
      cases a <;> simp
    have hmem : '|' ∈ stripList raw := by
      rw [hsplit]
      exact List.mem_append.mpr (Or.inr (List.mem_cons_self '|' b))
    unfold classify_line
    rw [if_neg hnil, if_neg hhash, if_pos (decide_eq_true hmem)]
    rw [hsplit, beforeFirst_append hnp, afterFirst_append hnp]
  · intro raw hnil hhash hnp
    unfold classify_line
    rw [if_neg hnil, if_neg hhash, if_neg (by simpa using hnp)]

/-- Witness for Claim C7 applied at concrete lines: order preservation
on a concatenation, a skipped blank line, a skipped comment line and a
warned pipe-less line. -/
theorem claim7_witness :
    load_pairs (scenario6_lines ++ scenario6_lines) =
      load_pairs scenario6_lines ++ load_pairs scenario6_lines ∧
    classify_line (strL "   ") = .skipped ∧
    classify_line (strL "# note") = .skipped ∧
    classify_line (strL "no pipe here") = .warned :=
  ⟨claim7_loader.2.2.1 scenario6_lines scenario6_lines,
   claim7_loader.2.2.2.1 (strL "   ") (by decide),
   claim7_loader.2.2.2.2.1 (strL "# note") (by decide),
   claim7_loader.2.2.2.2.2.2 (strL "no pipe here") (by decide) (by decide) (by decide)⟩

/-- Claim C8: the loader reports success exactly when the file was
opened and decoded and at least one valid pair was extracted; on every
failure the exposed pair list is empty, and success guarantees a
non-empty pair list. -/
theorem claim8_load_success (inp : LoadInput) :
    ((load_vocabulary inp).1 = true ↔
      ∃ lines, inp = .content lines ∧ load_pairs lines ≠ []) ∧
    ((load_vocabulary inp).1 = false → (load_vocabulary inp).2 = []) ∧
    ((load_vocabulary inp).1 = true → (load_vocabulary inp).2 ≠ []) := by
  cases inp with
  | fileNotFound => simp [load_vocabulary]
  | decodeError => simp [load_vocabulary]
  | otherError => simp [load_vocabulary]
  | content lines =>
    refine ⟨⟨?_, ?_⟩, ?_, ?_⟩
    · intro h
      refine ⟨lines, rfl, ?_⟩
      have hp : 0 < (load_pairs lines).length := by
        simpa [load_vocabulary] using h
      exact List.length_pos.mp hp
    · rintro ⟨lines2, heq, hne⟩
      injection heq with h2
      subst h2
      simp [load_vocabulary, List.length_pos.mpr hne]
    · intro h
      have hp : ¬ 0 < (load_pairs lines).length := by
        simpa [load_vocabulary] using h
      have hz : (load_pairs lines).length = 0 := by omega
      simp [load_vocabulary, List.length_eq_zero.mp hz]
    · intro h
      have hp : 0 < (load_pairs lines).length := by
        simpa [load_vocabulary] using h
      simpa [load_vocabulary] using List.length_pos.mp hp

/-- Witness for Claim C8: a one-line readable file succeeds and exposes
a pair, and a missing file fails with no pairs. -/
theorem claim8_witness :
    (load_vocabulary (.content [strL "bonjour|hallo"])).2 ≠ [] ∧
    (load_vocabulary .fileNotFound).2 = [] :=
  ⟨(claim8_load_success (.content [strL "bonjour|hallo"])).2.2 (by decide),
   (claim8_load_success .fileNotFound).2.1 (by decide)⟩

/-! ## Claim about the exit status -/

/-- Claim C4 counterexample: with a missing vocabulary file,
initialization fails, yet the modelled process exit status is 0, not
non-zero as the claim demands. -/
theorem claim4_counterexample :
    (load_vocabulary .fileNotFound).1 = false ∧
    main_exit .fileNotFound (fun _ => (.french_to_dutch, [])) [] = 0 := by decide

/-- Claim C4 (amended): the exit status is 0 on every normal
termination (quit, interrupt, declined continue) and also 0 when
initialization fails; the only modelled non-zero exit is the uncaught
end-of-file error on an exhausted input script, so the exit status
never signals an initialization failure. -/
theorem claim4_exit_status (inp : LoadInput) (oracle : Nat → Direction × List Char)
    (script : List RawInput) :
    ((load_vocabulary inp).1 = false → main_exit inp oracle script = 0) ∧
    ((sessionLoop oracle 0 initState script).2 = .normal →
      main_exit inp oracle script = 0) ∧
    (main_exit inp oracle script ≠ 0 →
      (load_vocabulary inp).1 = true ∧
      (sessionLoop oracle 0 initState script).2 = .eofCrash) := by
  unfold main_exit
  by_cases h : (load_vocabulary inp).1 = true
  · rw [if_pos h]
    cases hend : (sessionLoop oracle 0 initState script).2 with
    | normal => exact ⟨fun hf => absurd h (by simp [hf]), fun _ => rfl, fun hne => absurd rfl hne⟩
    | eofCrash =>
      exact ⟨fun hf => absurd h (by simp [hf]), fun hn => absurd hn (by decide),
        fun _ => ⟨h, rfl⟩⟩
  · have hf : (load_vocabulary inp).1 = false := by
      cases hb : (load_vocabulary inp).1
      · rfl
      · exact absurd hb h
    rw [if_neg (by simp [hf])]
    exact ⟨fun _ => rfl, fun _ => rfl, fun hne => absurd rfl hne⟩

/-- Witness for the amended Claim C4: failed initialization exits 0,
and a session ended by an interrupt exits 0. -/
theorem claim4_witness :
    main_exit .decodeError (fun _ => (.french_to_dutch, [])) [] = 0 ∧
    main_exit (.content [strL "a|b"]) (fun _ => (.french_to_dutch, strL "b"))
      [.interrupt] = 0 :=
  ⟨(claim4_exit_status .decodeError (fun _ => (.french_to_dutch, [])) []).1 (by decide),
   (claim4_exit_status (.content [strL "a|b"]) (fun _ => (.french_to_dutch, strL "b"))
      [.interrupt]).2.1 (by decide)⟩

end FrenchWords
